import Mathlib

set_option maxRecDepth 100000

/-!
Shallow embedding of the `safe_disclosure` Python package
(`src/safe_disclosure/tokenizer.py`, `roles.py`, `core.py`).

Python strings are modelled as Lean `String` (with the underlying
`List Char` used for the character-level algorithms), Python dicts as
association lists with unique keys and insertion-order iteration
(`dictGet` / `dictInsert`), Python sets as duplicate-free lists in
first-occurrence order, and the `re` module's `findall` as a small
greedy-backtracking matcher over the exact regex sublanguage used by
`_load_default_patterns` (single-character classes with quantifiers and
word boundaries).  The randomness drawn by `secrets.token_hex(8)` inside
`Tokenizer.generate_token` (and the subsequent truncated SHA-256) is
modelled by an oracle `fresh : Nat → String` giving the 12-character
suffix produced by the i-th fresh mint of a registry instance.
-/

namespace SafeDisclosure

/-- ASCII uppercase of one character, modelling Python `str.upper` on the
character data this program manipulates. -/
def pyUpperChar (c : Char) : Char :=
  if 97 ≤ c.toNat ∧ c.toNat ≤ 122 then Char.ofNat (c.toNat - 32) else c

/-- ASCII lowercase of one character, modelling Python `str.lower`. -/
def pyLowerChar (c : Char) : Char :=
  if 65 ≤ c.toNat ∧ c.toNat ≤ 90 then Char.ofNat (c.toNat + 32) else c

/-- Python `str.upper`. -/
def pyUpper (s : String) : String := String.mk (s.data.map pyUpperChar)

/-- Python `str.lower`. -/
def pyLower (s : String) : String := String.mk (s.data.map pyLowerChar)

/-- Python dict lookup (`d.get(key)` / `key in d`): first (unique) matching key. -/
def dictGet {β : Type} : List (String × β) → String → Option β
  | [], _ => none
  | (k, v) :: rest, key => if k = key then some v else dictGet rest key

/-- Python dict assignment `d[key] = v`: update in place if the key exists
(keeping its position), otherwise append at the end. -/
def dictInsert {β : Type} : List (String × β) → String → β → List (String × β)
  | [], k, v => [(k, v)]
  | (k', v') :: rest, k, v =>
    if k' = k then (k, v) :: rest else (k', v') :: dictInsert rest k v

/-- Scanning loop of Python `str.replace` for a non-empty pattern `old`:
replace each leftmost non-overlapping occurrence, continuing after the
replacement.  The fuel argument (instantiated with the text length) makes
the recursion structural; each step consumes at least one character. -/
def replGo (old new : List Char) : Nat → List Char → List Char
  | _, [] => []
  | 0, s => s
  | fuel + 1, c :: rest =>
    if old.isPrefixOf (c :: rest) then
      new ++ replGo old new fuel (List.drop (old.length - 1) rest)
    else
      c :: replGo old new fuel rest

/-- `interleave new s` places `new` after every character of `s`; together
with a leading copy of `new` this is Python's `s.replace("", new)`. -/
def interleave (new : List Char) : List Char → List Char
  | [] => []
  | c :: rest => c :: (new ++ interleave new rest)

/-- Python `str.replace(old, new)` (all occurrences).  For the empty
pattern Python inserts `new` at every character boundary:
`"ab".replace("", "X") == "XaXbX"`. -/
def pyReplace (s old new : String) : String :=
  if old.data = [] then
    String.mk (new.data ++ interleave new.data s.data)
  else
    String.mk (replGo old.data new.data s.data.length s.data)

/-- Scanning loop of Python `str.count` for a non-empty pattern:
leftmost non-overlapping occurrences. -/
def countGo (pat : List Char) : Nat → List Char → Nat
  | _, [] => 0
  | 0, _ => 0
  | fuel + 1, c :: rest =>
    if pat.isPrefixOf (c :: rest) ∧ pat ≠ [] then
      1 + countGo pat fuel (List.drop (pat.length - 1) rest)
    else
      countGo pat fuel rest

/-- Python `str.count(pat)`; for the empty pattern Python returns
`len(s) + 1`. -/
def pyCount (s pat : String) : Nat :=
  if pat.data = [] then s.data.length + 1
  else countGo pat.data s.data.length s.data

/-- Python `str.split(sep)` for a single-character separator: splits at
every occurrence, keeping empty segments (`"a__b".split("_") == ["a", "", "b"]`). -/
def pySplitChar (sep : Char) : List Char → List (List Char)
  | [] => [[]]
  | c :: rest =>
    if c = sep then [] :: pySplitChar sep rest
    else
      match pySplitChar sep rest with
      | h :: t => (c :: h) :: t
      | [] => [[c]]

/-- Python substring test `needle in hay`. -/
def containsSub (needle : List Char) : List Char → Bool
  | [] => needle.isEmpty
  | c :: rest => needle.isPrefixOf (c :: rest) || containsSub needle rest

/-- State of `safe_disclosure.tokenizer.Tokenizer`: the reserved prefix
(`token_` + `pref` fields joined as `tokenPref` since the source's field
name cannot be used verbatim here), the (never incremented) counter, and
the two synchronized dicts `entity_tokens : value → token` and
`token_entities : token → (entity_type, entity_value)`. -/
structure Tokenizer where
  tokenPref : String
  token_counter : Nat
  entity_tokens : List (String × String)
  token_entities : List (String × (String × String))

/-- `Tokenizer()` with the default prefix `"TOKEN_"`. -/
def tokenizerInit : Tokenizer := ⟨"TOKEN_", 0, [], []⟩

/-- `Tokenizer.generate_token`: return the existing token if the value was
minted before (keyed purely by the value); otherwise build
`prefix + entity_type.upper() + "_" + suffix` where the suffix models
`sha256(f"{entity_type}:{entity_value}:{secrets.token_hex(8)}").hexdigest()[:12]`
via the oracle `fresh` applied to the number of previously minted values,
and store both mappings. -/
def generate_token (fresh : Nat → String) (st : Tokenizer) (ty v : String) :
    Tokenizer × String :=
  match dictGet st.entity_tokens v with
  | some t => (st, t)
  | none =>
    let suffix := fresh st.entity_tokens.length
    let token := st.tokenPref ++ pyUpper ty ++ "_" ++ suffix
    ({ st with
        entity_tokens := dictInsert st.entity_tokens v token,
        token_entities := dictInsert st.token_entities token (ty, v) },
     token)

/-- `Tokenizer.get_entity_type_from_token`: stored type if the token is
known; otherwise parse the token structure (strip the prefix, split on
`'_'`, lowercase the first part when there are at least two parts);
otherwise the sentinel `"unknown"`. -/
def get_entity_type_from_token (st : Tokenizer) (token : String) : String :=
  match dictGet st.token_entities token with
  | some tv => tv.1
  | none =>
    if (Tokenizer.tokenPref st).data.isPrefixOf token.data then
      match pySplitChar '_' (token.data.drop (Tokenizer.tokenPref st).data.length) with
      | p0 :: _ :: _ => pyLower (String.mk p0)
      | _ => "unknown"
    else "unknown"

/-- `Tokenizer.get_original_value`: stored value if known, else the token
itself (passthrough). -/
def get_original_value (st : Tokenizer) (token : String) : String :=
  match dictGet st.token_entities token with
  | some tv => tv.2
  | none => token

/-- `Tokenizer.clear_tokens`. -/
def clear_tokens (st : Tokenizer) : Tokenizer :=
  { st with entity_tokens := [], token_entities := [], token_counter := 0 }

/-- A sequence of `generate_token` calls on one instance, returning the
final state and the token returned by each call, in order. -/
def mintMany (fresh : Nat → String) :
    Tokenizer → List (String × String) → Tokenizer × List String
  | st, [] => (st, [])
  | st, c :: rest =>
    let r := generate_token fresh st c.1 c.2
    let r2 := mintMany fresh r.1 rest
    (r2.1, r.2 :: r2.2)

/-- One record of `RoleManager.roles`. -/
structure RolePolicy where
  allowed_entities : List String
  can_restore : Bool
  description : String

/-- `RoleManager._load_default_roles`. -/
def defaultRoles : List (String × RolePolicy) :=
  [ ("public", ⟨[], false,
      "Public audience - no sensitive data visible"⟩),
    ("internal", ⟨["name"], false,
      "Internal team - names visible but other data redacted"⟩),
    ("manager", ⟨["name", "email"], true,
      "Management level - names and emails visible"⟩),
    ("admin", ⟨["name", "email", "phone", "ip_address"], true,
      "Admin level - most entities visible except highly sensitive"⟩),
    ("security", ⟨["name", "email", "phone", "ip_address", "ssn", "credit_card"], true,
      "Security team - all entities visible"⟩) ]

/-- `RoleManager.get_allowed_entities`: empty set for unknown roles. -/
def get_allowed_entities (roles : List (String × RolePolicy))
    (role_name : String) : List String :=
  match dictGet roles role_name with
  | none => []
  | some p => p.allowed_entities

/-- `RoleManager.can_restore`: `False` for unknown roles. -/
def can_restore (roles : List (String × RolePolicy)) (role_name : String) : Bool :=
  match dictGet roles role_name with
  | none => false
  | some p => p.can_restore

/-- `RoleManager.role_hierarchy_check`. -/
def role_hierarchy_check (requester_role target_role : String) : Bool :=
  let role_levels : List (String × Int) :=
    [("public", 0), ("internal", 1), ("manager", 2), ("admin", 3), ("security", 4)]
  let requester_level := (dictGet role_levels requester_role).getD (-1)
  let target_level := (dictGet role_levels target_role).getD 0
  decide (requester_level ≥ target_level)

/-! ### The `re` sublanguage used by `SafeDisclosure._load_default_patterns`

Every quantified atom in the six default patterns is a single-character
class, so a pattern is a sequence of items, each either a word boundary
`\b` or a class with a `{lo, hi}` repetition count (`hi = none` meaning
unbounded).  `matchEnds` lists the candidate end positions of a match
starting at `pos` in decreasing priority order (greedy quantifiers try
longer repetitions first, exactly Python's backtracking order), so the
head of the list is the match Python's engine produces. -/

inductive RItem where
  | cls (p : Char → Bool) (lo : Nat) (hi : Option Nat)
  | boundary

/-- Python regex word character `\w` (ASCII relevant here). -/
def isWordChar (c : Char) : Bool :=
  (65 ≤ c.toNat && c.toNat ≤ 90) || (97 ≤ c.toNat && c.toNat ≤ 122) ||
  (48 ≤ c.toNat && c.toNat ≤ 57) || c == '_'

/-- Whether position `i` of the text holds a word character. -/
def isWordCharAt (full : List Char) (i : Nat) : Bool :=
  match full.get? i with
  | some c => isWordChar c
  | none => false

/-- `\b`: exactly one of the two neighbouring positions holds a word character. -/
def atWordBoundary (full : List Char) (pos : Nat) : Bool :=
  (if pos = 0 then false else isWordCharAt full (pos - 1)) != isWordCharAt full pos

/-- Length of the maximal run of characters satisfying `p`. -/
def runLen (p : Char → Bool) : List Char → Nat
  | [] => 0
  | c :: rest => if p c then runLen p rest + 1 else 0

/-- Candidate end positions for matching the item sequence at `pos`,
in decreasing priority (greedy-first) order. -/
def matchEnds (full : List Char) : List RItem → Nat → List Nat
  | [], pos => [pos]
  | RItem.boundary :: rest, pos =>
    if atWordBoundary full pos then matchEnds full rest pos else []
  | RItem.cls p lo hi :: rest, pos =>
    let run := runLen p (full.drop pos)
    let top := match hi with | some h => min run h | none => run
    if lo ≤ top then
      ((List.range (top - lo + 1)).map (fun k => top - k)).flatMap
        (fun c => matchEnds full rest (pos + c))
    else []

/-- The substring of `full` from position `a` (inclusive) to `b` (exclusive). -/
def extract (full : List Char) (a b : Nat) : List Char :=
  (full.drop a).take (b - a)

/-- Scanning loop of Python `re.findall`: try each start position left to
right, emit the greedy match and continue after it (advancing one position
past an empty match).  Fuel (text length + 1) makes the recursion
structural; each step strictly advances the position. -/
def findallGo (r : List RItem) (full : List Char) : Nat → Nat → List (List Char)
  | 0, _ => []
  | fuel + 1, pos =>
    if pos > full.length then []
    else
      match (matchEnds full r pos).head? with
      | some e =>
        extract full pos e :: findallGo r full fuel (if e = pos then pos + 1 else e)
      | none => findallGo r full fuel (pos + 1)

/-- Python `re.findall(pattern, text)` for the pattern sublanguage. -/
def findall (r : List RItem) (full : List Char) : List (List Char) :=
  findallGo r full (full.length + 1) 0

/-- `\d`. -/
def isDigitChar (c : Char) : Bool := 48 ≤ c.toNat && c.toNat ≤ 57

/-- `[A-Z]`. -/
def isUpperAlpha (c : Char) : Bool := 65 ≤ c.toNat && c.toNat ≤ 90

/-- `[a-z]`. -/
def isLowerAlpha (c : Char) : Bool := 97 ≤ c.toNat && c.toNat ≤ 122

/-- `[A-Za-z0-9._%+-]` (local part of the email pattern). -/
def emailLocalChar (c : Char) : Bool :=
  isUpperAlpha c || isLowerAlpha c || isDigitChar c ||
  c == '.' || c == '_' || c == '%' || c == '+' || c == '-'

/-- `[A-Za-z0-9.-]` (domain part of the email pattern). -/
def emailDomainChar (c : Char) : Bool :=
  isUpperAlpha c || isLowerAlpha c || isDigitChar c || c == '.' || c == '-'

/-- `[A-Z|a-z]` (the `|` inside the class is a literal bar). -/
def emailTldChar (c : Char) : Bool :=
  isUpperAlpha c || c == '|' || isLowerAlpha c

/-- `[-.]`. -/
def dashDotChar (c : Char) : Bool := c == '-' || c == '.'

/-- `[\s-]` with Python's ASCII whitespace class. -/
def spaceDashChar (c : Char) : Bool :=
  c == ' ' || c == '\t' || c == '\n' || c == '\r' ||
  c == '\x0b' || c == '\x0c' || c == '-'

/-- A single literal character as a class item. -/
def lit (c : Char) : RItem := RItem.cls (fun x => x == c) 1 (some 1)

/-- `\b[A-Za-z0-9._%+-]+@[A-Za-z0-9.-]+\.[A-Z|a-z]{2,}\b`. -/
def emailPattern : List RItem :=
  [RItem.boundary, RItem.cls emailLocalChar 1 none, lit '@',
   RItem.cls emailDomainChar 1 none, lit '.',
   RItem.cls emailTldChar 2 none, RItem.boundary]

/-- `\b\d{3}[-.]?\d{3}[-.]?\d{4}\b`. -/
def phonePattern : List RItem :=
  [RItem.boundary, RItem.cls isDigitChar 3 (some 3), RItem.cls dashDotChar 0 (some 1),
   RItem.cls isDigitChar 3 (some 3), RItem.cls dashDotChar 0 (some 1),
   RItem.cls isDigitChar 4 (some 4), RItem.boundary]

/-- `\b\d{3}-?\d{2}-?\d{4}\b`. -/
def ssnPattern : List RItem :=
  [RItem.boundary, RItem.cls isDigitChar 3 (some 3), RItem.cls (fun c => c == '-') 0 (some 1),
   RItem.cls isDigitChar 2 (some 2), RItem.cls (fun c => c == '-') 0 (some 1),
   RItem.cls isDigitChar 4 (some 4), RItem.boundary]

/-- `\b\d{4}[\s-]?\d{4}[\s-]?\d{4}[\s-]?\d{4}\b`. -/
def creditCardPattern : List RItem :=
  [RItem.boundary, RItem.cls isDigitChar 4 (some 4), RItem.cls spaceDashChar 0 (some 1),
   RItem.cls isDigitChar 4 (some 4), RItem.cls spaceDashChar 0 (some 1),
   RItem.cls isDigitChar 4 (some 4), RItem.cls spaceDashChar 0 (some 1),
   RItem.cls isDigitChar 4 (some 4), RItem.boundary]

/-- `\b\d{1,3}\.\d{1,3}\.\d{1,3}\.\d{1,3}\b`. -/
def ipPattern : List RItem :=
  [RItem.boundary, RItem.cls isDigitChar 1 (some 3), lit '.',
   RItem.cls isDigitChar 1 (some 3), lit '.',
   RItem.cls isDigitChar 1 (some 3), lit '.',
   RItem.cls isDigitChar 1 (some 3), RItem.boundary]

/-- `\b[A-Z][a-z]+ [A-Z][a-z]+\b`. -/
def namePattern : List RItem :=
  [RItem.boundary, RItem.cls isUpperAlpha 1 (some 1), RItem.cls isLowerAlpha 1 none,
   lit ' ', RItem.cls isUpperAlpha 1 (some 1), RItem.cls isLowerAlpha 1 none,
   RItem.boundary]

/-- `SafeDisclosure._load_default_patterns`, in dict (insertion) order. -/
def entityPatterns : List (String × List RItem) :=
  [("email", emailPattern), ("phone", phonePattern), ("ssn", ssnPattern),
   ("credit_card", creditCardPattern), ("ip_address", ipPattern),
   ("name", namePattern)]

/-! ### `SafeDisclosure._find_entities`, `redact_document`, `restore_document` -/

/-- Python `set(...)` of a list, as a duplicate-free list in
first-occurrence order (one fixed enumeration order; the source's `set`
iteration order is unspecified, and the claims proved below do not depend
on the order of same-type matches). -/
def dedupFirst : List String → List String
  | [] => []
  | x :: xs => x :: (dedupFirst xs).filter (fun y => y != x)

/-- The regex half of `_find_entities`: per pattern, the distinct matches,
omitting entity types with no match. -/
def findEntitiesPatterns (text : List Char) : List (String × List String) :=
  entityPatterns.filterMap (fun tp =>
    let ms := dedupFirst ((findall tp.2 text).map String.mk)
    if ms = [] then none else some (tp.1, ms))

/-- `entities_found.setdefault(ty, set()).update(found)`. -/
def setUpdate (acc : List (String × List String)) (ty : String)
    (found : List String) : List (String × List String) :=
  match dictGet acc ty with
  | some cur => dictInsert acc ty (cur ++ found.filter (fun v => !cur.contains v))
  | none => acc ++ [(ty, found)]

/-- `SafeDisclosure._find_entities`. -/
def find_entities (text : String)
    (custom : Option (List (String × List String))) :
    List (String × List String) :=
  let base := findEntitiesPatterns text.data
  match custom with
  | none => base
  | some cs =>
    cs.foldl (fun acc tl =>
      let found := dedupFirst (tl.2.filter (fun e => containsSub e.data text.data))
      if found = [] then acc else setUpdate acc tl.1 found) base

/-- Inner loop body of `redact_document`: mint a token for one match,
substitute it into the running text, and record the mapping. -/
def redactStep (fresh : Nat → String) (ty : String)
    (acc : String × List (String × String) × Tokenizer) (m : String) :
    String × List (String × String) × Tokenizer :=
  let r := generate_token fresh acc.2.2 ty m
  (pyReplace acc.1 m r.2, dictInsert acc.2.1 r.2 m, r.1)

/-- `SafeDisclosure.redact_document`: the returned pair
`(redacted_text, token_mapping)` plus the updated tokenizer state of the
instance. -/
def redact_document (fresh : Nat → String) (st : Tokenizer)
    (roles : List (String × RolePolicy)) (text : String)
    (target_role : String)
    (custom : Option (List (String × List String))) :
    (String × List (String × String)) × Tokenizer :=
  let allowed := get_allowed_entities roles target_role
  let entities := find_entities text custom
  let fin := entities.foldl (fun acc tms =>
    if tms.1 ∈ allowed then acc else tms.2.foldl (redactStep fresh tms.1) acc)
    (text, [], st)
  ((fin.1, fin.2.1), fin.2.2)

/-- `SafeDisclosure.restore_document`. -/
def restore_document (roles : List (String × RolePolicy)) (st : Tokenizer)
    (redacted_text : String) (token_mapping : List (String × String))
    (requester_role : String) : String :=
  if can_restore roles requester_role = false then redacted_text
  else
    let allowed := get_allowed_entities roles requester_role
    token_mapping.foldl (fun txt tv =>
      if get_entity_type_from_token st tv.1 ∈ allowed then pyReplace txt tv.1 tv.2
      else txt) redacted_text

/-! ### Fixtures and proof-level predicates -/

/-- Lowercase hexadecimal digit, the alphabet of
`hashlib.sha256(...).hexdigest()` suffixes. -/
def isHexDigitChar (c : Char) : Bool :=
  isDigitChar c || (97 ≤ c.toNat && c.toNat ≤ 102)

/-- The end-to-end scenario text of the specification. -/
def text6 : String := "Hello John Doe, email john.doe@example.com, phone 555-123-4567."

/-- A concrete suffix oracle used by counterexamples: two fixed
12-character lowercase-hex strings. -/
def freshA : Nat → String := fun i => if i = 0 then "aaaaaaaaaaaa" else "bbbbbbbbbbbb"

/-- A concrete injective, underscore-free suffix oracle used by witnesses. -/
def freshPad : Nat → String := fun i => String.mk (List.replicate (i + 1) 'a')

/-- Modelled from the claim's wording (C10): the level table of the five
built-in roles; `none` for every other role name. -/
def claimedLevel (r : String) : Option Int :=
  if r = "public" then some 0
  else if r = "internal" then some 1
  else if r = "manager" then some 2
  else if r = "admin" then some 3
  else if r = "security" then some 4
  else none

/-- Invariant of the redaction loop (from `tokenizerInit` and an empty
token mapping): the instance prefix is the default, every minted value's
token is recorded in the exported mapping, and every mapping key is a
token built from a suffix index below the number of minted values. -/
def RedInv (fresh : Nat → String) (m : List (String × String)) (tk : Tokenizer) : Prop :=
  Tokenizer.tokenPref tk = "TOKEN_" ∧
  (∀ v t, dictGet tk.entity_tokens v = some t → dictGet m t = some v) ∧
  (∀ t, (∃ w, dictGet m t = some w) →
    ∃ i ty, i < tk.entity_tokens.length ∧ t = "TOKEN_" ++ pyUpper ty ++ "_" ++ fresh i)

/-- Invariant of a `generate_token` call sequence (C4): the instance
prefix is the default, the two internal maps stay synchronized with the
recorded type given by the type assignment `F`, and every recorded token
is built from a suffix index below the number of minted values. -/
def MintInv (fresh : Nat → String) (F : String → String) (tk : Tokenizer) : Prop :=
  Tokenizer.tokenPref tk = "TOKEN_" ∧
  (∀ v t, dictGet tk.entity_tokens v = some t →
    dictGet tk.token_entities t = some (F v, v)) ∧
  (∀ t x, dictGet tk.token_entities t = some x →
    ∃ i ty, i < tk.entity_tokens.length ∧ t = "TOKEN_" ++ pyUpper ty ++ "_" ++ fresh i)

/-! ### Basic dictionary lemmas -/

theorem dictGet_insert_self {β : Type} (m : List (String × β)) (k : String) (v : β) :
    dictGet (dictInsert m k v) k = some v := by
  induction m with
  | nil => simp [dictGet, dictInsert]
  | cons p rest ih =>
    by_cases h : p.1 = k
    · simp [dictInsert, dictGet, h]
    · simp [dictInsert, dictGet, h, ih]

theorem dictGet_insert_ne {β : Type} (m : List (String × β)) (k k' : String) (v : β)
    (h : k' ≠ k) : dictGet (dictInsert m k v) k' = dictGet m k' := by
  induction m with
  | nil => simp [dictGet, dictInsert, Ne.symm h]
  | cons p rest ih =>
    by_cases hp : p.1 = k
    · subst hp
      simp only [dictInsert, if_pos rfl]
      simp [dictGet, Ne.symm h]
    · simp [dictInsert, hp, dictGet, ih]

theorem dictInsert_same {β : Type} (m : List (String × β)) (k : String) (v : β)
    (h : dictGet m k = some v) : dictInsert m k v = m := by
  induction m with
  | nil => simp [dictGet] at h
  | cons p rest ih =>
    rcases p with ⟨k', v'⟩
    by_cases hk : k' = k
    · subst hk
      simp [dictGet] at h
      simp [dictInsert, h]
    · simp [dictGet, hk] at h
      simp [dictInsert, hk, ih h]

theorem dictGet_append_left {β : Type} (m l : List (String × β)) (k : String) (v : β)
    (h : dictGet m k = some v) : dictGet (m ++ l) k = some v := by
  induction m with
  | nil => simp [dictGet] at h
  | cons p rest ih =>
    by_cases hp : p.1 = k
    · simp_all [dictGet]
    · simp_all [dictGet]

theorem dictGet_append_right {β : Type} (m l : List (String × β)) (k : String)
    (h : dictGet m k = none) : dictGet (m ++ l) k = dictGet l k := by
  induction m with
  | nil => simp
  | cons p rest ih =>
    by_cases hp : p.1 = k
    · simp_all [dictGet]
    · simp_all [dictGet]

theorem dictGet_mem {β : Type} (m : List (String × β)) (k : String) (v : β)
    (h : dictGet m k = some v) : (k, v) ∈ m := by
  induction m with
  | nil => simp [dictGet] at h
  | cons p rest ih =>
    by_cases hp : p.1 = k
    · simp [dictGet, hp] at h
      rcases p with ⟨k', v'⟩
      simp_all
    · simp [dictGet, hp] at h
      exact List.mem_cons_of_mem _ (ih h)

/-! ### C10: role hierarchy levels -/

/-- **C10.** `role_hierarchy_check` resolves the requester level with
default `-1`, the target level with default `0`, and returns `true`
exactly when the requester level is at least the target level; hence for
any requester outside the five built-in roles it returns `false` for
every target. -/
theorem claim_C10 (requester target : String) :
    (role_hierarchy_check requester target =
      decide ((claimedLevel requester).getD (-1) ≥ (claimedLevel target).getD 0)) ∧
    (claimedLevel requester = none → role_hierarchy_check requester target = false) := by
  constructor
  · unfold role_hierarchy_check claimedLevel
    simp only [dictGet]
    by_cases h1 : requester = "public" <;>
      by_cases h2 : requester = "internal" <;>
        by_cases h3 : requester = "manager" <;>
          by_cases h4 : requester = "admin" <;>
            by_cases h5 : requester = "security" <;>
    by_cases g1 : target = "public" <;>
      by_cases g2 : target = "internal" <;>
        by_cases g3 : target = "manager" <;>
          by_cases g4 : target = "admin" <;>
            by_cases g5 : target = "security" <;>
    simp_all [eq_comm]
  · intro hnone
    unfold role_hierarchy_check
    unfold claimedLevel at hnone
    by_cases h1 : requester = "public" <;>
      by_cases h2 : requester = "internal" <;>
        by_cases h3 : requester = "manager" <;>
          by_cases h4 : requester = "admin" <;>
            by_cases h5 : requester = "security" <;>
      simp_all [dictGet, eq_comm]
    by_cases g1 : target = "public" <;>
      by_cases g2 : target = "internal" <;>
        by_cases g3 : target = "manager" <;>
          by_cases g4 : target = "admin" <;>
            by_cases g5 : target = "security" <;>
      simp_all [eq_comm]

/-- Witness for C10 at a concrete unknown requester. -/
theorem claim_C10_witness :
    claimedLevel "ghost" = none ∧ role_hierarchy_check "ghost" "public" = false :=
  ⟨by decide, (claim_C10 "ghost" "public").2 (by decide)⟩

/-! ### C7: detection determinism -/

/-- **C7.** Entity detection is deterministic: any two results of
`_find_entities` on the same text, patterns, and custom entities agree,
type by type, on the set of detected values. -/
theorem claim_C7 (text : String) (custom : Option (List (String × List String)))
    (r1 r2 : List (String × List String))
    (h1 : r1 = find_entities text custom) (h2 : r2 = find_entities text custom) :
    ∀ ty v, (∃ ms, dictGet r1 ty = some ms ∧ v ∈ ms) ↔
            (∃ ms, dictGet r2 ty = some ms ∧ v ∈ ms) := by
  subst h1; subst h2; intro ty v; exact Iff.rfl

/-- Witness for C7 at a concrete text, entity type, and value. -/
theorem claim_C7_witness :
    (∃ ms, dictGet (find_entities "a@b.cd" none) "email" = some ms ∧ "a@b.cd" ∈ ms) ↔
    (∃ ms, dictGet (find_entities "a@b.cd" none) "email" = some ms ∧ "a@b.cd" ∈ ms) :=
  claim_C7 "a@b.cd" none _ _ rfl rfl "email" "a@b.cd"

/-! ### C5: value-keyed token reuse -/

/-- **C5.** Minting the same literal value twice on one instance returns
the identical token both times, regardless of the entity type passed
to the second call. -/
theorem claim_C5 (fresh : Nat → String) (st : Tokenizer) (ty1 ty2 v : String) :
    (generate_token fresh (generate_token fresh st ty1 v).1 ty2 v).2 =
      (generate_token fresh st ty1 v).2 := by
  unfold generate_token
  cases h : dictGet st.entity_tokens v with
  | some t => simp [h]
  | none => simp [h, dictGet_insert_self]

/-! ### C2: type recovery from the token string alone -/

theorem isPrefixOf_append_self (l r : List Char) : l.isPrefixOf (l ++ r) = true := by
  induction l with
  | nil => simp [List.isPrefixOf]
  | cons c cs ih => simp [List.isPrefixOf, ih]

theorem pySplitChar_ne_nil (sep : Char) (l : List Char) : pySplitChar sep l ≠ [] := by
  cases l with
  | nil => simp [pySplitChar]
  | cons c rest =>
    simp only [pySplitChar]
    by_cases h : c = sep
    · simp [h]
    · cases hh : pySplitChar sep rest with
      | nil => simp [h, hh]
      | cons x xs => simp [h, hh]

theorem pySplitChar_append (a b : List Char) (ha : '_' ∉ a) :
    pySplitChar '_' (a ++ '_' :: b) = a :: pySplitChar '_' b := by
  induction a with
  | nil => simp [pySplitChar]
  | cons c cs ih =>
    have hc : ¬ c = '_' := fun h => ha (h ▸ List.mem_cons_self c cs)
    have hcs : '_' ∉ cs := fun h => ha (List.mem_cons_of_mem _ h)
    simp only [List.cons_append, pySplitChar, if_neg hc, List.append_eq, ih hcs]

theorem pyUpperChar_eq_underscore {c : Char} (h : pyUpperChar c = '_') : c = '_' := by
  unfold pyUpperChar at h
  split at h
  · rename_i hc
    obtain ⟨hc1, hc2⟩ := hc
    exfalso
    interval_cases hn : c.toNat <;> exact absurd h (by decide)
  · exact h

theorem pyUpper_no_underscore (ty : String) (h : '_' ∉ ty.data) :
    '_' ∉ (pyUpper ty).data := by
  unfold pyUpper
  intro hmem
  simp only [List.mem_map] at hmem
  rcases hmem with ⟨x, hx, hup⟩
  exact h (pyUpperChar_eq_underscore hup ▸ hx)

/-- **C2 (amended).** Parsing a freshly minted token on a registry with no
memory of the minting recovers the entity type, provided the type contains
no underscore and is fixed by lowercasing its uppercasing (true of
`email`, `phone`, `ssn`, `name`, but not of `credit_card` / `ip_address`,
whose parsed type is only the first underscore-separated segment). -/
theorem claim_C2_amended (fresh : Nat → String) (st : Tokenizer) (ty v : String)
    (hst : dictGet st.entity_tokens v = none)
    (hpref : Tokenizer.tokenPref st = "TOKEN_")
    (hu : '_' ∉ ty.data)
    (hrt : pyLower (pyUpper ty) = ty) :
    get_entity_type_from_token tokenizerInit (generate_token fresh st ty v).2 = ty := by
  have htok : (generate_token fresh st ty v).2 =
      "TOKEN_" ++ pyUpper ty ++ "_" ++ fresh st.entity_tokens.length := by
    unfold generate_token
    rw [hst]
    simp [hpref]
  rw [htok]
  have hdata : ("TOKEN_" ++ pyUpper ty ++ "_" ++ fresh st.entity_tokens.length).data =
      "TOKEN_".data ++ ((pyUpper ty).data ++ '_' :: (fresh st.entity_tokens.length).data) := by
    simp [String.data_append]
  unfold get_entity_type_from_token
  have hget : dictGet (Tokenizer.token_entities tokenizerInit)
      ("TOKEN_" ++ pyUpper ty ++ "_" ++ fresh st.entity_tokens.length) = none := rfl
  rw [hget]
  have hprefTok : (Tokenizer.tokenPref tokenizerInit).data = "TOKEN_".data := rfl
  rw [hprefTok, hdata, isPrefixOf_append_self]
  simp only [if_true]
  have hlen : "TOKEN_".data.length = 6 := rfl
  rw [show ("TOKEN_".data ++ ((pyUpper ty).data ++ '_' ::
      (fresh st.entity_tokens.length).data)).drop "TOKEN_".data.length =
      (pyUpper ty).data ++ '_' :: (fresh st.entity_tokens.length).data from
    List.drop_left _ _]
  rw [pySplitChar_append _ _ (pyUpper_no_underscore ty hu)]
  rcases hsp : pySplitChar '_' (fresh st.entity_tokens.length).data with _ | ⟨x, xs⟩
  · exact absurd hsp (pySplitChar_ne_nil _ _)
  · exact hrt

/-- Witness for C2 (amended) at entity type `email`. -/
theorem claim_C2_amended_witness :
    get_entity_type_from_token tokenizerInit
      (generate_token (fun _ => "aaaaaaaaaaaa") tokenizerInit "email" "a@b.cd").2 = "email" :=
  claim_C2_amended (fun _ => "aaaaaaaaaaaa") tokenizerInit "email" "a@b.cd"
    rfl rfl (by decide) (by decide)

/-- **C2 (counterexample).** For the built-in entity type `credit_card`,
parsing a minted token on a fresh instance yields `"credit"`, not
`"credit_card"`: the fallback splits on `'_'` and keeps only the first
segment. -/
theorem claim_C2_counterexample :
    get_entity_type_from_token tokenizerInit
      (generate_token (fun _ => "aaaaaaaaaaaa") tokenizerInit
        "credit_card" "4111111111111111").2 = "credit" ∧
    "credit" ≠ "credit_card" := by decide

/-! ### C1: redact-then-restore round trip for `security` -/

theorem findEntitiesPatterns_keys (text : List Char) (p : String × List String)
    (hp : p ∈ findEntitiesPatterns text) :
    p.1 = "email" ∨ p.1 = "phone" ∨ p.1 = "ssn" ∨ p.1 = "credit_card" ∨
    p.1 = "ip_address" ∨ p.1 = "name" := by
  unfold findEntitiesPatterns at hp
  rcases List.mem_filterMap.1 hp with ⟨a, ha, hfa⟩
  have hfa2 : (if dedupFirst (List.map String.mk (findall a.2 text)) = [] then none
      else some (a.1, dedupFirst (List.map String.mk (findall a.2 text)))) = some p := hfa
  have hfst : a.1 = p.1 := by
    split at hfa2
    · exact absurd hfa2 (by simp)
    · rcases Option.some.inj hfa2 with rfl
      rfl
  rw [← hfst]
  simp only [entityPatterns, List.mem_cons, List.not_mem_nil, or_false] at ha
  rcases ha with rfl | rfl | rfl | rfl | rfl | rfl <;> simp

theorem redact_fold_skip (fresh : Nat → String) (allowed : List String)
    (entities : List (String × List String))
    (acc : String × List (String × String) × Tokenizer)
    (h : ∀ p ∈ entities, p.1 ∈ allowed) :
    entities.foldl (fun acc tms =>
      if tms.1 ∈ allowed then acc else tms.2.foldl (redactStep fresh tms.1) acc) acc
      = acc := by
  induction entities generalizing acc with
  | nil => rfl
  | cons e rest ih =>
    simp only [List.foldl_cons]
    rw [if_pos (h e (List.mem_cons_self e rest))]
    exact ih acc (fun p hp => h p (List.mem_cons_of_mem e hp))

theorem redact_security_id (fresh : Nat → String) (st : Tokenizer) (text : String) :
    redact_document fresh st defaultRoles text "security" none = ((text, []), st) := by
  simp only [redact_document]
  rw [redact_fold_skip]
  intro p hp
  have hkeys := findEntitiesPatterns_keys text.data p hp
  rcases hkeys with h | h | h | h | h | h <;>
    simp [get_allowed_entities, defaultRoles, dictGet, h]

/-- **C1.** For any text (whose detected entities are necessarily among
the six built-in types, since no custom entities are supplied), redacting
for role `security` and restoring with the produced token map for role
`security` returns exactly the original text. -/
theorem claim_C1 (fresh : Nat → String) (st : Tokenizer) (text : String) :
    restore_document defaultRoles
      (redact_document fresh st defaultRoles text "security" none).2
      (redact_document fresh st defaultRoles text "security" none).1.1
      (redact_document fresh st defaultRoles text "security" none).1.2
      "security" = text := by
  rw [redact_security_id]
  unfold restore_document
  split <;> rfl

/-! ### Token shape and cross-mint distinctness -/

theorem takeWhile_append_no {p : Char → Bool} (l : List Char) (x : Char) (r : List Char)
    (hl : ∀ c ∈ l, p c = true) (hx : p x = false) :
    List.takeWhile p (l ++ x :: r) = l := by
  induction l with
  | nil => simp [List.takeWhile_cons, hx]
  | cons c cs ih =>
    simp only [List.cons_append, List.takeWhile_cons, hl c (List.mem_cons_self c cs),
      if_true]
    rw [ih (fun d hd => hl d (List.mem_cons_of_mem c hd))]

theorem last_underscore_seg (a b s t : List Char) (hs : '_' ∉ s) (ht : '_' ∉ t)
    (h : a ++ '_' :: s = b ++ '_' :: t) : s = t := by
  have h1 := congrArg List.reverse h
  simp only [List.reverse_append, List.reverse_cons, List.append_assoc,
    List.singleton_append] at h1
  have h2 := congrArg (List.takeWhile (fun c => c != '_')) h1
  rw [takeWhile_append_no _ _ _
        (fun c hc => by
          have hcs : c ∈ s := List.mem_reverse.mp hc
          have hne : c ≠ '_' := fun hEq => hs (hEq ▸ hcs)
          exact bne_iff_ne.mpr hne)
        (by decide),
      takeWhile_append_no _ _ _
        (fun c hc => by
          have hct : c ∈ t := List.mem_reverse.mp hc
          have hne : c ≠ '_' := fun hEq => ht (hEq ▸ hct)
          exact bne_iff_ne.mpr hne)
        (by decide)] at h2
  exact List.reverse_injective h2

theorem token_suffix_eq (fresh : Nat → String) (hu : ∀ i, '_' ∉ (fresh i).data)
    (ty1 ty2 : String) (i j : Nat)
    (h : "TOKEN_" ++ pyUpper ty1 ++ "_" ++ fresh i =
         "TOKEN_" ++ pyUpper ty2 ++ "_" ++ fresh j) :
    fresh i = fresh j := by
  have hd := congrArg String.data h
  simp only [String.data_append] at hd
  have hd2 : ("TOKEN_".data ++ (pyUpper ty1).data) ++ '_' :: (fresh i).data =
      ("TOKEN_".data ++ (pyUpper ty2).data) ++ '_' :: (fresh j).data := by
    simpa [List.append_assoc, show ("_" : String).data = ['_'] from rfl,
      List.singleton_append] using hd
  have hseq := last_underscore_seg _ _ _ _ (hu i) (hu j) hd2
  exact congrArg String.mk hseq

theorem token_ne_of_index_ne (fresh : Nat → String)
    (hinj : ∀ i j, fresh i = fresh j → i = j) (hu : ∀ i, '_' ∉ (fresh i).data)
    (ty1 ty2 : String) (i j : Nat) (hij : i ≠ j) :
    "TOKEN_" ++ pyUpper ty1 ++ "_" ++ fresh i ≠
      "TOKEN_" ++ pyUpper ty2 ++ "_" ++ fresh j :=
  fun h => hij (hinj i j (token_suffix_eq fresh hu ty1 ty2 i j h))

/-! ### `generate_token` state lemmas -/

theorem generate_token_pres (fresh : Nat → String) (st : Tokenizer) (ty mv v t : String)
    (h : dictGet st.entity_tokens v = some t) :
    dictGet (generate_token fresh st ty mv).1.entity_tokens v = some t := by
  unfold generate_token
  cases hm : dictGet st.entity_tokens mv with
  | some t0 => simpa using h
  | none =>
    have hne : v ≠ mv := fun he => by rw [← he, h] at hm; cases hm
    simpa [dictGet_insert_ne st.entity_tokens mv v _ hne] using h

theorem generate_token_self (fresh : Nat → String) (st : Tokenizer) (ty mv : String) :
    dictGet (generate_token fresh st ty mv).1.entity_tokens mv =
      some (generate_token fresh st ty mv).2 := by
  unfold generate_token
  cases hm : dictGet st.entity_tokens mv with
  | some t0 => simpa using hm
  | none => simp [dictGet_insert_self]

theorem dictInsert_length_absent {β : Type} (m : List (String × β)) (k : String) (v : β)
    (h : dictGet m k = none) : (dictInsert m k v).length = m.length + 1 := by
  induction m with
  | nil => rfl
  | cons p rest ih =>
    by_cases hp : p.1 = k
    · simp [dictGet, hp] at h
    · simp only [dictGet, hp, if_neg hp] at h
      simp [dictInsert, hp, ih h]

/-! ### C3: fail-closed behaviour for unknown roles -/

theorem redactStep_inv (fresh : Nat → String)
    (hinj : ∀ i j, fresh i = fresh j → i = j) (hu : ∀ i, '_' ∉ (fresh i).data)
    (ty : String) (acc : String × List (String × String) × Tokenizer) (mv : String)
    (hI : RedInv fresh acc.2.1 acc.2.2) :
    RedInv fresh (redactStep fresh ty acc mv).2.1 (redactStep fresh ty acc mv).2.2 := by
  obtain ⟨hpref, hmap, hform⟩ := hI
  unfold redactStep
  dsimp only
  cases hm : dictGet acc.2.2.entity_tokens mv with
  | some t0 =>
    have hg : generate_token fresh acc.2.2 ty mv = (acc.2.2, t0) := by
      unfold generate_token; rw [hm]
    rw [hg]
    dsimp only
    rw [dictInsert_same _ _ _ (hmap mv t0 hm)]
    exact ⟨hpref, hmap, hform⟩
  | none =>
    have hg : generate_token fresh acc.2.2 ty mv =
        ({ acc.2.2 with
            entity_tokens := dictInsert acc.2.2.entity_tokens mv
              (Tokenizer.tokenPref acc.2.2 ++ pyUpper ty ++ "_" ++
                fresh acc.2.2.entity_tokens.length),
            token_entities := dictInsert acc.2.2.token_entities
              (Tokenizer.tokenPref acc.2.2 ++ pyUpper ty ++ "_" ++
                fresh acc.2.2.entity_tokens.length) (ty, mv) },
         Tokenizer.tokenPref acc.2.2 ++ pyUpper ty ++ "_" ++
           fresh acc.2.2.entity_tokens.length) := by
      unfold generate_token; rw [hm]
    rw [hg, hpref]
    dsimp only
    have hlen : (dictInsert acc.2.2.entity_tokens mv
        ("TOKEN_" ++ pyUpper ty ++ "_" ++ fresh acc.2.2.entity_tokens.length)).length =
        acc.2.2.entity_tokens.length + 1 :=
      dictInsert_length_absent _ _ _ hm
    refine ⟨hpref, ?_, ?_⟩
    · intro v t hv
      by_cases hveq : v = mv
      · subst hveq
        rw [dictGet_insert_self] at hv
        rcases Option.some.inj hv with rfl
        exact dictGet_insert_self _ _ _
      · rw [dictGet_insert_ne _ _ _ _ hveq] at hv
        have hmv := hmap v t hv
        have htne : t ≠ "TOKEN_" ++ pyUpper ty ++ "_" ++
            fresh acc.2.2.entity_tokens.length := by
          rcases hform t ⟨v, hmv⟩ with ⟨i, ty', hi, hteq⟩
          rw [hteq]
          exact token_ne_of_index_ne fresh hinj hu ty' ty i _ (Nat.ne_of_lt hi)
        rw [dictGet_insert_ne _ _ _ _ htne]
        exact hmv
    · intro t hw
      rcases hw with ⟨w, hw⟩
      by_cases hteq : t = "TOKEN_" ++ pyUpper ty ++ "_" ++
          fresh acc.2.2.entity_tokens.length
      · exact ⟨acc.2.2.entity_tokens.length, ty, by rw [hlen]; omega, hteq⟩
      · rw [dictGet_insert_ne _ _ _ _ hteq] at hw
        rcases hform t ⟨w, hw⟩ with ⟨i, ty', hi, hteq'⟩
        exact ⟨i, ty', by rw [hlen]; omega, hteq'⟩

theorem redactStep_pres (fresh : Nat → String) (ty : String)
    (acc : String × List (String × String) × Tokenizer) (mv v t : String)
    (h : dictGet acc.2.2.entity_tokens v = some t) :
    dictGet (redactStep fresh ty acc mv).2.2.entity_tokens v = some t :=
  generate_token_pres fresh acc.2.2 ty mv v t h

theorem redactStep_self (fresh : Nat → String) (ty : String)
    (acc : String × List (String × String) × Tokenizer) (mv : String) :
    ∃ t, dictGet (redactStep fresh ty acc mv).2.2.entity_tokens mv = some t :=
  ⟨_, generate_token_self fresh acc.2.2 ty mv⟩

theorem innerFold_pres (fresh : Nat → String) (ty : String) (ms : List String) :
    ∀ (acc : String × List (String × String) × Tokenizer) (v t : String),
      dictGet acc.2.2.entity_tokens v = some t →
      dictGet ((ms.foldl (redactStep fresh ty) acc)).2.2.entity_tokens v = some t := by
  induction ms with
  | nil => intro acc v t h; exact h
  | cons m rest ih =>
    intro acc v t h
    exact ih _ v t (redactStep_pres fresh ty acc m v t h)

theorem innerFold_inv (fresh : Nat → String)
    (hinj : ∀ i j, fresh i = fresh j → i = j) (hu : ∀ i, '_' ∉ (fresh i).data)
    (ty : String) (ms : List String) :
    ∀ (acc : String × List (String × String) × Tokenizer),
      RedInv fresh acc.2.1 acc.2.2 →
      RedInv fresh ((ms.foldl (redactStep fresh ty) acc)).2.1
        ((ms.foldl (redactStep fresh ty) acc)).2.2 := by
  induction ms with
  | nil => intro acc h; exact h
  | cons m rest ih =>
    intro acc h
    exact ih _ (redactStep_inv fresh hinj hu ty acc m h)

theorem innerFold_mem (fresh : Nat → String) (ty : String) (ms : List String) :
    ∀ (acc : String × List (String × String) × Tokenizer) (v : String), v ∈ ms →
      ∃ t, dictGet ((ms.foldl (redactStep fresh ty) acc)).2.2.entity_tokens v = some t := by
  induction ms with
  | nil => intro acc v hv; exact absurd hv (List.not_mem_nil v)
  | cons m rest ih =>
    intro acc v hv
    rcases List.mem_cons.mp hv with rfl | hv2
    · obtain ⟨t, ht⟩ := redactStep_self fresh ty acc v
      exact ⟨t, innerFold_pres fresh ty rest _ v t ht⟩
    · exact ih _ v hv2

theorem outerFold_pres (fresh : Nat → String) (allowed : List String)
    (entities : List (String × List String)) :
    ∀ (acc : String × List (String × String) × Tokenizer) (v t : String),
      dictGet acc.2.2.entity_tokens v = some t →
      dictGet ((entities.foldl (fun acc tms =>
          if tms.1 ∈ allowed then acc else tms.2.foldl (redactStep fresh tms.1) acc)
        acc)).2.2.entity_tokens v = some t := by
  induction entities with
  | nil => intro acc v t h; exact h
  | cons e rest ih =>
    intro acc v t h
    simp only [List.foldl_cons]
    by_cases he : e.1 ∈ allowed
    · rw [if_pos he]; exact ih acc v t h
    · rw [if_neg he]; exact ih _ v t (innerFold_pres fresh e.1 e.2 acc v t h)

theorem outerFold_inv (fresh : Nat → String)
    (hinj : ∀ i j, fresh i = fresh j → i = j) (hu : ∀ i, '_' ∉ (fresh i).data)
    (allowed : List String) (entities : List (String × List String)) :
    ∀ (acc : String × List (String × String) × Tokenizer),
      RedInv fresh acc.2.1 acc.2.2 →
      RedInv fresh ((entities.foldl (fun acc tms =>
          if tms.1 ∈ allowed then acc else tms.2.foldl (redactStep fresh tms.1) acc)
        acc)).2.1
        ((entities.foldl (fun acc tms =>
          if tms.1 ∈ allowed then acc else tms.2.foldl (redactStep fresh tms.1) acc)
        acc)).2.2 := by
  induction entities with
  | nil => intro acc h; exact h
  | cons e rest ih =>
    intro acc h
    simp only [List.foldl_cons]
    by_cases he : e.1 ∈ allowed
    · rw [if_pos he]; exact ih acc h
    · rw [if_neg he]; exact ih _ (innerFold_inv fresh hinj hu e.1 e.2 acc h)

theorem outerFold_mem (fresh : Nat → String) (allowed : List String)
    (entities : List (String × List String)) :
    ∀ (acc : String × List (String × String) × Tokenizer) (ty : String)
      (ms : List String) (v : String),
      (ty, ms) ∈ entities → ty ∉ allowed → v ∈ ms →
      ∃ t, dictGet ((entities.foldl (fun acc tms =>
          if tms.1 ∈ allowed then acc else tms.2.foldl (redactStep fresh tms.1) acc)
        acc)).2.2.entity_tokens v = some t := by
  induction entities with
  | nil => intro acc ty ms v hmem; exact absurd hmem (List.not_mem_nil _)
  | cons e rest ih =>
    intro acc ty ms v hmem hty hv
    simp only [List.foldl_cons]
    rcases List.mem_cons.mp hmem with heq | hmem2
    · subst heq
      dsimp only
      rw [if_neg hty]
      obtain ⟨t, ht⟩ := innerFold_mem fresh ty ms acc v hv
      exact ⟨t, outerFold_pres fresh allowed rest _ v t ht⟩
    · exact ih _ ty ms v hmem2 hty hv

theorem restore_unknown_role (role : String)
    (hrole : dictGet defaultRoles role = none) (st : Tokenizer)
    (text : String) (tmap : List (String × String)) :
    restore_document defaultRoles st text tmap role = text := by
  unfold restore_document
  rw [if_pos]
  unfold can_restore
  rw [hrole]

/-- **C3.** For a role name absent from the role table, `redact_document`
treats the allowed set as empty and mints a token for every detected
entity value (each detected value has an entry in the returned token map),
and `restore_document` returns its input unchanged for every text and
token map. -/
theorem claim_C3 (fresh : Nat → String) (role text : String)
    (custom : Option (List (String × List String)))
    (hrole : dictGet defaultRoles role = none)
    (hinj : ∀ i j, fresh i = fresh j → i = j)
    (hu : ∀ i, '_' ∉ (fresh i).data) :
    (∀ ty ms v, dictGet (find_entities text custom) ty = some ms → v ∈ ms →
      ∃ t, dictGet
        (redact_document fresh tokenizerInit defaultRoles text role custom).1.2 t
        = some v) ∧
    (∀ (st : Tokenizer) (anytext : String) (tmap : List (String × String)),
      restore_document defaultRoles st anytext tmap role = anytext) := by
  have hallowed : get_allowed_entities defaultRoles role = [] := by
    unfold get_allowed_entities; rw [hrole]
  constructor
  · intro ty ms v hms hv
    simp only [redact_document]
    have hInit : RedInv fresh
        ((text, ([] : List (String × String)), tokenizerInit)).2.1
        ((text, ([] : List (String × String)), tokenizerInit)).2.2 := by
      refine ⟨rfl, ?_, ?_⟩
      · intro v' t' h; exact absurd h (by simp [tokenizerInit, dictGet])
      · intro t' ⟨w, hw⟩; exact absurd hw (by simp [tokenizerInit, dictGet])
    have hmem : (ty, ms) ∈ find_entities text custom := dictGet_mem _ _ _ hms
    have hty : ty ∉ get_allowed_entities defaultRoles role := by
      rw [hallowed]; exact List.not_mem_nil ty
    obtain ⟨t, ht⟩ := outerFold_mem fresh (get_allowed_entities defaultRoles role)
      (find_entities text custom) (text, [], tokenizerInit) ty ms v hmem hty hv
    have hInv := outerFold_inv fresh hinj hu (get_allowed_entities defaultRoles role)
      (find_entities text custom) (text, [], tokenizerInit) hInit
    exact ⟨t, hInv.2.1 v t ht⟩
  · intro st anytext tmap
    exact restore_unknown_role role hrole st anytext tmap

/-- Witness for C3 at the concrete unknown role `"ghost"`. -/
theorem claim_C3_witness :
    restore_document defaultRoles tokenizerInit "abc" [("t", "v")] "ghost" = "abc" :=
  (claim_C3 freshPad "ghost" "" none rfl
    (fun i j h => by
      have hl := congrArg (fun s => s.data.length) h
      simpa [freshPad] using hl)
    (fun i h => by
      have h2 : '_' ∈ List.replicate (i + 1) 'a' := h
      exact absurd (List.eq_of_mem_replicate h2) (by decide))).2
    tokenizerInit "abc" [("t", "v")]

/-! ### C4: stored type/value of minted tokens -/

theorem mint_inv_step (fresh : Nat → String)
    (hinj : ∀ i j, fresh i = fresh j → i = j) (hu : ∀ i, '_' ∉ (fresh i).data)
    (F : String → String) (st : Tokenizer) (ty v : String) (hFc : F v = ty)
    (hI : MintInv fresh F st) :
    MintInv fresh F (generate_token fresh st ty v).1 ∧
    dictGet (generate_token fresh st ty v).1.token_entities
      (generate_token fresh st ty v).2 = some (F v, v) := by
  obtain ⟨hpref, hsync, hform⟩ := hI
  unfold generate_token
  cases hm : dictGet st.entity_tokens v with
  | some t0 =>
    exact ⟨⟨hpref, hsync, hform⟩, hsync v t0 hm⟩
  | none =>
    rw [hpref]
    dsimp only
    have hlen : (dictInsert st.entity_tokens v
        ("TOKEN_" ++ pyUpper ty ++ "_" ++ fresh st.entity_tokens.length)).length =
        st.entity_tokens.length + 1 :=
      dictInsert_length_absent _ _ _ hm
    have hnewform : ∀ t x, dictGet st.token_entities t = some x →
        t ≠ "TOKEN_" ++ pyUpper ty ++ "_" ++ fresh st.entity_tokens.length := by
      intro t x hx
      rcases hform t x hx with ⟨i, ty', hi, hteq⟩
      rw [hteq]
      exact token_ne_of_index_ne fresh hinj hu ty' ty i _ (Nat.ne_of_lt hi)
    refine ⟨⟨rfl, ?_, ?_⟩, ?_⟩
    · intro v' t' hv'
      by_cases hveq : v' = v
      · subst hveq
        rw [dictGet_insert_self] at hv'
        rcases Option.some.inj hv' with rfl
        rw [dictGet_insert_self, hFc]
      · rw [dictGet_insert_ne _ _ _ _ hveq] at hv'
        have hte := hsync v' t' hv'
        rw [dictGet_insert_ne _ _ _ _ (hnewform t' _ hte)]
        exact hte
    · intro t' x hx
      by_cases hteq : t' = "TOKEN_" ++ pyUpper ty ++ "_" ++ fresh st.entity_tokens.length
      · exact ⟨st.entity_tokens.length, ty, by rw [hlen]; omega, hteq⟩
      · rw [dictGet_insert_ne _ _ _ _ hteq] at hx
        rcases hform t' x hx with ⟨i, ty', hi, hteq'⟩
        exact ⟨i, ty', by rw [hlen]; omega, hteq'⟩
    · rw [dictGet_insert_self, hFc]

theorem mint_te_pres (fresh : Nat → String)
    (hinj : ∀ i j, fresh i = fresh j → i = j) (hu : ∀ i, '_' ∉ (fresh i).data)
    (F : String → String) (st : Tokenizer) (ty v : String)
    (hI : MintInv fresh F st) (t : String) (x : String × String)
    (h : dictGet st.token_entities t = some x) :
    dictGet (generate_token fresh st ty v).1.token_entities t = some x := by
  obtain ⟨hpref, hsync, hform⟩ := hI
  unfold generate_token
  cases hm : dictGet st.entity_tokens v with
  | some t0 => simpa using h
  | none =>
    rw [hpref]
    dsimp only
    have htne : t ≠ "TOKEN_" ++ pyUpper ty ++ "_" ++ fresh st.entity_tokens.length := by
      rcases hform t x h with ⟨i, ty', hi, hteq⟩
      rw [hteq]
      exact token_ne_of_index_ne fresh hinj hu ty' ty i _ (Nat.ne_of_lt hi)
    rw [dictGet_insert_ne _ _ _ _ htne]
    exact h

theorem mintMany_te_pres (fresh : Nat → String)
    (hinj : ∀ i j, fresh i = fresh j → i = j) (hu : ∀ i, '_' ∉ (fresh i).data)
    (F : String → String) :
    ∀ (calls : List (String × String)) (st : Tokenizer), MintInv fresh F st →
      (∀ p ∈ calls, F p.2 = p.1) →
      ∀ (t : String) (x : String × String), dictGet st.token_entities t = some x →
      dictGet (mintMany fresh st calls).1.token_entities t = some x := by
  intro calls
  induction calls with
  | nil => intro st _ _ t x h; exact h
  | cons c rest ih =>
    intro st hI hF t x h
    have hFc : F c.2 = c.1 := hF c (List.mem_cons_self c rest)
    have hstep := mint_inv_step fresh hinj hu F st c.1 c.2 hFc hI
    exact ih _ hstep.1 (fun p hp => hF p (List.mem_cons_of_mem c hp)) t x
      (mint_te_pres fresh hinj hu F st c.1 c.2 hI t x h)

theorem mintMany_spec (fresh : Nat → String)
    (hinj : ∀ i j, fresh i = fresh j → i = j) (hu : ∀ i, '_' ∉ (fresh i).data)
    (F : String → String) :
    ∀ (calls : List (String × String)) (st : Tokenizer), MintInv fresh F st →
      (∀ p ∈ calls, F p.2 = p.1) →
      MintInv fresh F (mintMany fresh st calls).1 ∧
      List.Forall₂ (fun (c : String × String) (t : String) =>
        dictGet (mintMany fresh st calls).1.token_entities t = some (F c.2, c.2))
        calls (mintMany fresh st calls).2 := by
  intro calls
  induction calls with
  | nil => intro st hI _; exact ⟨hI, List.Forall₂.nil⟩
  | cons c rest ih =>
    intro st hI hF
    have hFc : F c.2 = c.1 := hF c (List.mem_cons_self c rest)
    have hstep := mint_inv_step fresh hinj hu F st c.1 c.2 hFc hI
    have hrest := ih (generate_token fresh st c.1 c.2).1 hstep.1
      (fun p hp => hF p (List.mem_cons_of_mem c hp))
    simp only [mintMany]
    refine ⟨hrest.1, List.Forall₂.cons ?_ hrest.2⟩
    exact mintMany_te_pres fresh hinj hu F rest _ hstep.1
      (fun p hp => hF p (List.mem_cons_of_mem c hp)) _ _ hstep.2

theorem forall₂_imp_mem {α β : Type} {P Q : α → β → Prop} :
    ∀ (l1 : List α) (l2 : List β), List.Forall₂ P l1 l2 →
      (∀ a ∈ l1, ∀ b, P a b → Q a b) → List.Forall₂ Q l1 l2 := by
  intro l1 l2 h
  induction h with
  | nil => intro _; exact List.Forall₂.nil
  | cons hab htail ih =>
    intro himp
    exact List.Forall₂.cons (himp _ (List.mem_cons_self _ _) _ hab)
      (ih (fun a ha b hb => himp a (List.mem_cons_of_mem _ ha) b hb))

/-- **C4 (amended).** For a sequence of `generate_token` calls on one
fresh instance in which every value is always minted under the same
entity type (formalized by a type assignment `F` agreeing with all
calls), the token returned by each call has, in the final state, exactly
the entity type and value of that call.  (Without the consistency
condition only the value part holds: a second mint of an existing value
returns the old token, whose recorded type is the first call's type.) -/
theorem claim_C4_amended (fresh : Nat → String) (calls : List (String × String))
    (F : String → String)
    (hinj : ∀ i j, fresh i = fresh j → i = j)
    (hu : ∀ i, '_' ∉ (fresh i).data)
    (hF : ∀ p ∈ calls, F p.2 = p.1) :
    List.Forall₂ (fun (c : String × String) (t : String) =>
      get_entity_type_from_token (mintMany fresh tokenizerInit calls).1 t = c.1 ∧
      get_original_value (mintMany fresh tokenizerInit calls).1 t = c.2)
      calls (mintMany fresh tokenizerInit calls).2 := by
  have hInit : MintInv fresh F tokenizerInit := by
    refine ⟨rfl, ?_, ?_⟩
    · intro v t h; exact absurd h (by simp [tokenizerInit, dictGet])
    · intro t x h; exact absurd h (by simp [tokenizerInit, dictGet])
  have hspec := mintMany_spec fresh hinj hu F calls tokenizerInit hInit hF
  refine forall₂_imp_mem calls _ hspec.2 ?_
  intro c hc t hP
  constructor
  · unfold get_entity_type_from_token
    rw [hP]
    exact hF c hc
  · unfold get_original_value
    rw [hP]

/-- Witness for C4 (amended) with two distinct values. -/
theorem claim_C4_amended_witness :
    List.Forall₂ (fun (c : String × String) (t : String) =>
      get_entity_type_from_token
        (mintMany freshPad tokenizerInit [("email", "a"), ("phone", "b")]).1 t = c.1 ∧
      get_original_value
        (mintMany freshPad tokenizerInit [("email", "a"), ("phone", "b")]).1 t = c.2)
      [("email", "a"), ("phone", "b")]
      (mintMany freshPad tokenizerInit [("email", "a"), ("phone", "b")]).2 :=
  claim_C4_amended freshPad [("email", "a"), ("phone", "b")]
    (fun v => if v = "a" then "email" else "phone")
    (fun i j h => by
      have hl := congrArg (fun s => s.data.length) h
      simpa [freshPad] using hl)
    (fun i h => by
      have h2 : '_' ∈ List.replicate (i + 1) 'a' := h
      exact absurd (List.eq_of_mem_replicate h2) (by decide))
    (by decide)

/-- **C4 (counterexample).** Minting the same value `"x"` first as
`email` and then as `phone` returns the same token twice, and the token's
recorded entity type is `"email"`, not the `"phone"` passed to the second
call that returned it. -/
theorem claim_C4_counterexample :
    (mintMany freshA tokenizerInit [("email", "x"), ("phone", "x")]).2.getD 1 "" =
      (mintMany freshA tokenizerInit [("email", "x"), ("phone", "x")]).2.getD 0 "" ∧
    get_entity_type_from_token
      (mintMany freshA tokenizerInit [("email", "x"), ("phone", "x")]).1
      ((mintMany freshA tokenizerInit [("email", "x"), ("phone", "x")]).2.getD 1 "")
      = "email" ∧
    "email" ≠ "phone" := by decide

/-! ### Computation lemmas for `str.replace` with a symbolic suffix -/

theorem replGo_fuelInv (old new : List Char) :
    ∀ (f1 : Nat) (s : List Char) (f2 : Nat), s.length ≤ f1 → s.length ≤ f2 →
      replGo old new f1 s = replGo old new f2 s := by
  intro f1
  induction f1 with
  | zero =>
    intro s f2 h1 _
    have hs : s = [] := List.eq_nil_of_length_eq_zero (Nat.le_zero.mp h1)
    subst hs
    cases f2 <;> rfl
  | succ f1' ih =>
    intro s f2 h1 h2
    cases s with
    | nil => cases f2 <;> rfl
    | cons c rest =>
      cases f2 with
      | zero => exact absurd h2 (by simp)
      | succ f2' =>
        simp only [replGo]
        by_cases hp : old.isPrefixOf (c :: rest) = true
        · rw [if_pos hp, if_pos hp]
          have hl1 : (List.drop (old.length - 1) rest).length ≤ f1' := by
            have := List.length_drop (old.length - 1) rest
            simp only [List.length_cons] at h1
            omega
          have hl2 : (List.drop (old.length - 1) rest).length ≤ f2' := by
            have := List.length_drop (old.length - 1) rest
            simp only [List.length_cons] at h2
            omega
          rw [ih _ f2' hl1 hl2]
        · rw [if_neg hp, if_neg hp]
          have hl1 : rest.length ≤ f1' := by simp only [List.length_cons] at h1; omega
          have hl2 : rest.length ≤ f2' := by simp only [List.length_cons] at h2; omega
          rw [ih rest f2' hl1 hl2]

theorem replGo_none_headFree (old new : List Char) (o : Char) (os : List Char)
    (ho : old = o :: os) (s : List Char) (hs : ∀ c ∈ s, (o == c) = false) :
    ∀ f, replGo old new f s = s := by
  induction s with
  | nil => intro f; cases f <;> rfl
  | cons c rest ih =>
    intro f
    cases f with
    | zero => rfl
    | succ f' =>
      have hp : old.isPrefixOf (c :: rest) = false := by
        rw [ho]
        simp [List.isPrefixOf, hs c (List.mem_cons_self c rest)]
      simp only [replGo]
      rw [if_neg (by simp [hp])]
      rw [ih (fun d hd => hs d (List.mem_cons_of_mem c hd)) f']

theorem replGo_match (old new : List Char) (hne : old ≠ []) (tail : List Char) (f : Nat)
    (hf : (old ++ tail).length ≤ f) :
    replGo old new f (old ++ tail) = new ++ replGo old new (f - old.length) tail := by
  cases old with
  | nil => exact absurd rfl hne
  | cons o os =>
    cases f with
    | zero => exact absurd hf (by simp)
    | succ f' =>
      have hp : (o :: os).isPrefixOf ((o :: os) ++ tail) = true :=
        isPrefixOf_append_self _ _
      show replGo (o :: os) new (f' + 1) (o :: (os ++ tail)) = _
      simp only [replGo]
      rw [if_pos (by simp only [List.cons_append] at hp; exact hp)]
      have hdrop : List.drop ((o :: os).length - 1) (os ++ tail) = tail := by
        simp only [List.length_cons, Nat.add_sub_cancel]
        exact List.drop_left os tail
      rw [hdrop]
      have hlen : tail.length ≤ f' := by
        simp only [List.length_append, List.length_cons] at hf
        omega
      have hlen2 : tail.length ≤ f' + 1 - (o :: os).length := by
        simp only [List.length_append, List.length_cons] at hf ⊢
        omega
      rw [replGo_fuelInv (o :: os) new f' tail (f' + 1 - (o :: os).length) hlen hlen2]

theorem replGo_skip_headFree (old new : List Char) (o : Char) (os : List Char)
    (ho : old = o :: os) (A : List Char) (hA : ∀ c ∈ A, (o == c) = false) :
    ∀ (tail : List Char) (f : Nat), (A ++ tail).length ≤ f →
      replGo old new f (A ++ tail) = A ++ replGo old new (f - A.length) tail := by
  induction A with
  | nil => intro tail f _; simp
  | cons c A' ih =>
    intro tail f hf
    cases f with
    | zero => exact absurd hf (by simp)
    | succ f' =>
      have hp : old.isPrefixOf (c :: (A' ++ tail)) = false := by
        rw [ho]
        simp [List.isPrefixOf, hA c (List.mem_cons_self c A')]
      simp only [List.cons_append, replGo, List.append_eq]
      rw [if_neg (by simp [hp])]
      rw [ih (fun d hd => hA d (List.mem_cons_of_mem c hd)) tail f'
        (by simp only [List.length_append, List.length_cons] at hf ⊢; omega)]
      simp [Nat.succ_sub_succ]

theorem phone_not_prefix_hex (g : List Char) (hg : g ≠ [])
    (hhex : ∀ c ∈ g, isHexDigitChar c = true) :
    ("555-123-4567".data).isPrefixOf (g ++ ", phone 555-123-4567.".data) = false := by
  have hP : "555-123-4567".data =
      ['5', '5', '5', '-', '1', '2', '3', '-', '4', '5', '6', '7'] := rfl
  have hT : ", phone 555-123-4567.".data =
      [',', ' ', 'p', 'h', 'o', 'n', 'e', ' ', '5', '5', '5', '-', '1', '2', '3',
       '-', '4', '5', '6', '7', '.'] := rfl
  have f1 : (('5' : Char) == ',') = false := by decide
  have f2 : (('-' : Char) == ',') = false := by decide
  rw [hP, hT]
  rcases g with _ | ⟨c1, _ | ⟨c2, _ | ⟨c3, _ | ⟨c4, g4⟩⟩⟩⟩
  · exact absurd rfl hg
  · simp [List.isPrefixOf, f1]
  · simp [List.isPrefixOf, f1]
  · simp [List.isPrefixOf, f2]
  · have h4 : (('-' : Char) == c4) = false := by
      cases hb : (('-' : Char) == c4)
      · rfl
      · have hc4 : ('-' : Char) = c4 := eq_of_beq hb
        have hmem : c4 ∈ c1 :: c2 :: c3 :: c4 :: g4 := by simp
        have habs : isHexDigitChar '-' = true := by
          rw [hc4]; exact hhex c4 hmem
        exact absurd habs (by decide)
    simp [List.isPrefixOf, h4]

theorem replGo_hexSkip (new : List Char) :
    ∀ (h : List Char), (∀ c ∈ h, isHexDigitChar c = true) →
    ∀ (f : Nat), (h ++ ", phone 555-123-4567.".data).length ≤ f →
      replGo "555-123-4567".data new f (h ++ ", phone 555-123-4567.".data) =
        h ++ replGo "555-123-4567".data new (f - h.length)
          ", phone 555-123-4567.".data := by
  intro h
  induction h with
  | nil => intro _ f _; simp
  | cons c h2 ih =>
    intro hhex f hf
    cases f with
    | zero => exact absurd hf (by simp)
    | succ f' =>
      have hp := phone_not_prefix_hex (c :: h2) (by simp) hhex
      simp only [List.cons_append] at hp
      simp only [List.cons_append, replGo, List.append_eq]
      rw [if_neg (by simp [hp])]
      rw [ih (fun d hd => hhex d (List.mem_cons_of_mem c hd)) f'
        (by simp only [List.length_append, List.length_cons] at hf ⊢; omega)]
      simp [Nat.succ_sub_succ]

/-! ### Count lemmas for the empty-pattern insertion (C9) -/

theorem interleave_length (new : List Char) (s : List Char) :
    (interleave new s).length = s.length * (new.length + 1) := by
  induction s with
  | nil => simp [interleave]
  | cons c rest ih =>
    simp only [interleave, List.length_cons, List.length_append, ih]
    ring

theorem interleave_no_match (r y : List Char) (c : Char) :
    (('T' :: 'O' :: r)).isPrefixOf (c :: (('T' :: 'O' :: r) ++ y)) = false := by
  simp only [List.cons_append, List.isPrefixOf]
  simp [show (('O' : Char) == 'T') = false from by decide]

theorem countGo_interleave (r : List Char) :
    ∀ (s : List Char) (f : Nat),
      (('T' :: 'O' :: r) ++ interleave ('T' :: 'O' :: r) s).length ≤ f →
      countGo ('T' :: 'O' :: r) f (('T' :: 'O' :: r) ++ interleave ('T' :: 'O' :: r) s)
        = s.length + 1 := by
  intro s
  induction s with
  | nil =>
    intro f hf
    simp only [interleave, List.append_nil] at hf ⊢
    cases f with
    | zero => exact absurd hf (by simp)
    | succ f0 =>
      have hpre : ('T' :: 'O' :: r).isPrefixOf ('T' :: 'O' :: r) = true := by
        simp
      show countGo ('T' :: 'O' :: r) (f0 + 1) ('T' :: ('O' :: r)) = 1
      simp only [countGo]
      rw [if_pos ⟨hpre, by simp⟩]
      have hdrop : List.drop (('T' :: 'O' :: r).length - 1) ('O' :: r) = [] := by
        have hl : ('T' :: 'O' :: r).length - 1 = ('O' :: r).length := by simp
        rw [hl, List.drop_length]
      rw [hdrop]
      cases f0 <;> rfl
  | cons c s' ih =>
    intro f hf
    simp only [interleave] at hf ⊢
    cases f with
    | zero => exact absurd hf (by simp)
    | succ f1 =>
      have hshape : ('T' :: 'O' :: r) ++
          (c :: (('T' :: 'O' :: r) ++ interleave ('T' :: 'O' :: r) s')) =
          'T' :: ('O' :: (r ++
            (c :: (('T' :: 'O' :: r) ++ interleave ('T' :: 'O' :: r) s')))) := by
        simp
      rw [hshape]
      have hpre : ('T' :: 'O' :: r).isPrefixOf ('T' :: ('O' :: (r ++
          (c :: (('T' :: 'O' :: r) ++ interleave ('T' :: 'O' :: r) s'))))) = true := by
        simp
      simp only [countGo]
      rw [if_pos ⟨hpre, by simp⟩]
      have hdrop : List.drop (('T' :: 'O' :: r).length - 1) ('O' :: (r ++
          (c :: (('T' :: 'O' :: r) ++ interleave ('T' :: 'O' :: r) s')))) =
          c :: (('T' :: 'O' :: r) ++ interleave ('T' :: 'O' :: r) s') := by
        have h1 : ('O' :: (r ++
            (c :: (('T' :: 'O' :: r) ++ interleave ('T' :: 'O' :: r) s')))) =
            ('O' :: r) ++ (c :: (('T' :: 'O' :: r) ++ interleave ('T' :: 'O' :: r) s')) := by
          simp
        have hl : ('T' :: 'O' :: r).length - 1 = ('O' :: r).length := by simp
        rw [h1, hl, List.drop_left]
      rw [hdrop]
      cases f1 with
      | zero =>
        exfalso
        simp only [List.length_append, List.length_cons] at hf
        omega
      | succ f2 =>
        simp only [countGo]
        rw [if_neg (fun hcontra => by
          rcases hcontra with ⟨ha, _⟩
          rw [interleave_no_match] at ha
          cases ha)]
        rw [ih f2 (by
          simp only [List.length_append, List.length_cons] at hf ⊢
          omega)]
        simp only [List.length_cons]
        omega

/-! ### C9: empty custom entity value -/

theorem containsSub_nil_true (l : List Char) : containsSub [] l = true := by
  cases l with
  | nil => rfl
  | cons c rest => simp [containsSub, List.isPrefixOf]

theorem mem_dedupFirst (v : String) : ∀ (l : List String), v ∈ l → v ∈ dedupFirst l := by
  intro l
  induction l with
  | nil => intro h; exact absurd h (List.not_mem_nil v)
  | cons x xs ih =>
    intro h
    rcases List.mem_cons.mp h with rfl | h2
    · exact List.mem_cons_self _ _
    · by_cases hvx : v = x
      · subst hvx; exact List.mem_cons_self _ _
      · simp only [dedupFirst, List.mem_cons]
        right
        rw [List.mem_filter]
        exact ⟨ih h2, by simpa using hvx⟩

theorem setUpdate_mem_self (acc : List (String × List String)) (ty : String)
    (found : List String) (v : String) (hv : v ∈ found) :
    ∃ ms, dictGet (setUpdate acc ty found) ty = some ms ∧ v ∈ ms := by
  unfold setUpdate
  cases hg : dictGet acc ty with
  | some cur =>
    refine ⟨cur ++ found.filter (fun w => !cur.contains w),
      dictGet_insert_self _ _ _, ?_⟩
    by_cases hvc : v ∈ cur
    · exact List.mem_append_left _ hvc
    · apply List.mem_append_right
      rw [List.mem_filter]
      exact ⟨hv, by simpa using hvc⟩
  | none =>
    refine ⟨found, ?_, hv⟩
    rw [dictGet_append_right _ _ _ hg]
    simp [dictGet]

theorem setUpdate_mem_pres (acc : List (String × List String)) (ty ty' : String)
    (found : List String) (v : String)
    (h : ∃ ms, dictGet acc ty = some ms ∧ v ∈ ms) :
    ∃ ms, dictGet (setUpdate acc ty' found) ty = some ms ∧ v ∈ ms := by
  rcases h with ⟨ms, hms, hv⟩
  unfold setUpdate
  cases hg : dictGet acc ty' with
  | some cur =>
    by_cases hty : ty = ty'
    · subst hty
      rw [hms] at hg
      rcases Option.some.inj hg with rfl
      exact ⟨ms ++ found.filter (fun w => !ms.contains w),
        dictGet_insert_self _ _ _, List.mem_append_left _ hv⟩
    · exact ⟨ms, by rw [dictGet_insert_ne _ _ _ _ hty]; exact hms, hv⟩
  | none =>
    exact ⟨ms, dictGet_append_left _ _ _ _ hms, hv⟩

theorem customFold_mem_pres (text : String) (cs : List (String × List String))
    (T : String) :
    ∀ acc, (∃ ms, dictGet acc T = some ms ∧ "" ∈ ms) →
      ∃ ms, dictGet (cs.foldl (fun acc tl =>
          let found := dedupFirst (tl.2.filter (fun e => containsSub e.data text.data))
          if found = [] then acc else setUpdate acc tl.1 found) acc) T
        = some ms ∧ "" ∈ ms := by
  induction cs with
  | nil => intro acc h; exact h
  | cons e rest ih =>
    intro acc h
    simp only [List.foldl_cons]
    apply ih
    dsimp only
    by_cases hfound :
        dedupFirst (e.2.filter (fun s => containsSub s.data text.data)) = []
    · rw [if_pos hfound]; exact h
    · rw [if_neg hfound]; exact setUpdate_mem_pres acc T e.1 _ "" h

theorem customFold_mem (text : String) (T : String) (lst : List String) :
    ∀ (cs : List (String × List String)) (acc : List (String × List String)),
      dictGet cs T = some lst → "" ∈ lst →
      ∃ ms, dictGet (cs.foldl (fun acc tl =>
          let found := dedupFirst (tl.2.filter (fun e => containsSub e.data text.data))
          if found = [] then acc else setUpdate acc tl.1 found) acc) T
        = some ms ∧ "" ∈ ms := by
  intro cs
  induction cs with
  | nil => intro acc h; simp [dictGet] at h
  | cons e rest ih =>
    intro acc hget hmem
    simp only [List.foldl_cons]
    by_cases hT : e.1 = T
    · have hlst : e.2 = lst := by
        have hget2 : (if e.1 = T then some e.2 else dictGet rest T) = some lst := hget
        rw [if_pos hT] at hget2
        exact Option.some.inj hget2
      have hfmem : "" ∈ dedupFirst (e.2.filter (fun s => containsSub s.data text.data)) := by
        apply mem_dedupFirst
        rw [List.mem_filter]
        refine ⟨hlst ▸ hmem, ?_⟩
        have hd : ("" : String).data = [] := rfl
        rw [hd]
        exact containsSub_nil_true _
      have hfound : dedupFirst (e.2.filter (fun s => containsSub s.data text.data)) ≠ [] :=
        List.ne_nil_of_mem hfmem
      apply customFold_mem_pres
      dsimp only
      rw [if_neg hfound, hT]
      exact setUpdate_mem_self acc T _ "" hfmem
    · have hget2 : (if e.1 = T then some e.2 else dictGet rest T) = some lst := hget
      rw [if_neg hT] at hget2
      exact ih _ hget2 hmem

/-- **C9 (amended).** If the custom-entities input maps type `T` to a list
containing the empty string, `_find_entities` reports `""` as a detected
value of type `T` for every text.  When additionally nothing else is
detected (no pattern matches) and `T` is not allowed for the role, the
redacted output is `T`'s token inserted at every character boundary of the
text, so the token occurs `len(text) + 1` times.  (As stated the count
claim fails when other entities are redacted first: the insertion then
applies to the partially redacted text, not the original.) -/
theorem claim_C9_amended (fresh : Nat → String) (text T role : String)
    (custom : List (String × List String)) (lst : List String)
    (hc : dictGet custom T = some lst) (hmem : "" ∈ lst) :
    (∃ ms, dictGet (find_entities text (some custom)) T = some ms ∧ "" ∈ ms) ∧
    (findEntitiesPatterns text.data = [] →
      T ∉ get_allowed_entities defaultRoles role →
      custom = [(T, [""])] →
      (redact_document fresh tokenizerInit defaultRoles text role
          (some custom)).1.1 =
        String.mk (("TOKEN_" ++ pyUpper T ++ "_" ++ fresh 0).data ++
          interleave ("TOKEN_" ++ pyUpper T ++ "_" ++ fresh 0).data text.data) ∧
      pyCount (redact_document fresh tokenizerInit defaultRoles text role
          (some custom)).1.1
        ("TOKEN_" ++ pyUpper T ++ "_" ++ fresh 0) = text.length + 1) := by
  constructor
  · have hbase := customFold_mem text T lst custom (findEntitiesPatterns text.data) hc hmem
    show ∃ ms, dictGet (find_entities text (some custom)) T = some ms ∧ "" ∈ ms
    unfold find_entities
    exact hbase
  · intro hpat hTallow hcust
    subst hcust
    have hfil : List.filter (fun e => containsSub e.data text.data) [""] = [""] := by
      have hd : ("" : String).data = [] := rfl
      simp [List.filter, hd, containsSub_nil_true]
    have hentities : find_entities text (some [(T, [""])]) = [(T, [""])] := by
      unfold find_entities
      rw [hpat]
      simp only [List.foldl_cons, List.foldl_nil]
      rw [hfil]
      have hded : dedupFirst [""] = [""] := rfl
      rw [hded]
      rw [if_neg (by simp)]
      rfl
    have htok : generate_token fresh tokenizerInit T "" =
        ({ tokenPref := "TOKEN_", token_counter := 0,
           entity_tokens := [("", "TOKEN_" ++ pyUpper T ++ "_" ++ fresh 0)],
           token_entities := [("TOKEN_" ++ pyUpper T ++ "_" ++ fresh 0, (T, ""))] },
         "TOKEN_" ++ pyUpper T ++ "_" ++ fresh 0) := rfl
    have hredact : (redact_document fresh tokenizerInit defaultRoles text role
        (some [(T, [""])])).1.1 =
        pyReplace text "" ("TOKEN_" ++ pyUpper T ++ "_" ++ fresh 0) := by
      simp only [redact_document, hentities]
      simp only [List.foldl_cons, List.foldl_nil]
      rw [if_neg hTallow]
      unfold redactStep
      rw [htok]
    have hrepl : pyReplace text "" ("TOKEN_" ++ pyUpper T ++ "_" ++ fresh 0) =
        String.mk (("TOKEN_" ++ pyUpper T ++ "_" ++ fresh 0).data ++
          interleave ("TOKEN_" ++ pyUpper T ++ "_" ++ fresh 0).data text.data) := by
      unfold pyReplace
      rw [if_pos (show ("" : String).data = [] from rfl)]
    have hshape : ("TOKEN_" ++ pyUpper T ++ "_" ++ fresh 0).data =
        'T' :: 'O' :: ('K' :: 'E' :: 'N' :: '_' ::
          ((pyUpper T).data ++ '_' :: (fresh 0).data)) := by
      simp [String.data_append,
        show ("TOKEN_" : String).data = ['T', 'O', 'K', 'E', 'N', '_'] from rfl,
        show ("_" : String).data = ['_'] from rfl]
    refine ⟨by rw [hredact, hrepl], ?_⟩
    rw [hredact, hrepl]
    unfold pyCount
    rw [if_neg (by rw [hshape]; simp)]
    show countGo ("TOKEN_" ++ pyUpper T ++ "_" ++ fresh 0).data _ _ = _
    rw [hshape]
    exact countGo_interleave _ text.data _ (le_refl _)

/-- Witness for C9 (amended): text `"zz"`, custom type `"x"` mapped to
`[""]`, role `public`. -/
theorem claim_C9_witness :
    (redact_document freshA tokenizerInit defaultRoles "zz" "public"
        (some [("x", [""])])).1.1 =
      String.mk (("TOKEN_" ++ pyUpper "x" ++ "_" ++ freshA 0).data ++
        interleave ("TOKEN_" ++ pyUpper "x" ++ "_" ++ freshA 0).data "zz".data) ∧
    pyCount (redact_document freshA tokenizerInit defaultRoles "zz" "public"
        (some [("x", [""])])).1.1
      ("TOKEN_" ++ pyUpper "x" ++ "_" ++ freshA 0) = "zz".length + 1 :=
  (claim_C9_amended freshA "zz" "x" "public" [("x", [""])] [""] rfl
    (by simp)).2 (by decide) (by decide) rfl

/-- **C9 (counterexample).** With text `"john@a.com"`, role `public`, and
custom entities `{"x": [""]}`, the hypotheses of the claim hold (`""` is
listed for type `"x"`, which the role may not see), yet `"x"`'s token
occurs 25 times in the output, not `len(text) + 1 = 11` — the email is
tokenized first, so the boundary insertion applies to the longer
intermediate text. -/
theorem claim_C9_counterexample :
    dictGet [("x", [""])] "x" = some [""] ∧ ("" : String) ∈ [""] ∧
    ¬ "x" ∈ get_allowed_entities defaultRoles "public" ∧
    pyCount (redact_document freshA tokenizerInit defaultRoles "john@a.com" "public"
        (some [("x", [""])])).1.1
      ("TOKEN_" ++ pyUpper "x" ++ "_" ++ freshA 1) = 25 ∧
    ("john@a.com" : String).length + 1 = 11 := by decide

/-! ### C6: the end-to-end `internal` scenario -/

theorem hrep1_email (new : String) :
    pyReplace text6 "john.doe@example.com" new =
      String.mk ("Hello John Doe, email ".data ++
        (new.data ++ ", phone 555-123-4567.".data)) := by
  unfold pyReplace
  rw [if_neg (by decide)]
  show String.mk (replGo "john.doe@example.com".data new.data
      ("Hello John Doe, email ".data ++
        ("john.doe@example.com".data ++ ", phone 555-123-4567.".data)).length
      ("Hello John Doe, email ".data ++
        ("john.doe@example.com".data ++ ", phone 555-123-4567.".data))) = _
  rw [replGo_skip_headFree "john.doe@example.com".data new.data 'j'
      "ohn.doe@example.com".data rfl "Hello John Doe, email ".data (by decide)
      ("john.doe@example.com".data ++ ", phone 555-123-4567.".data) _ (le_refl _)]
  rw [replGo_match "john.doe@example.com".data new.data (by decide)
      ", phone 555-123-4567.".data _ (by decide)]
  rw [replGo_none_headFree "john.doe@example.com".data new.data 'j'
      "ohn.doe@example.com".data rfl ", phone 555-123-4567.".data (by decide) _]

theorem hCtail_phone (new : String) (f : Nat) (hf : 21 ≤ f) :
    replGo "555-123-4567".data new.data f ", phone 555-123-4567.".data =
      ", phone ".data ++ (new.data ++ ".".data) := by
  show replGo "555-123-4567".data new.data f
      (", phone ".data ++ ("555-123-4567".data ++ ".".data)) = _
  rw [replGo_skip_headFree "555-123-4567".data new.data '5' "55-123-4567".data rfl
      ", phone ".data (by decide) ("555-123-4567".data ++ ".".data) f
      (by
        have hl : (", phone ".data ++ ("555-123-4567".data ++ ".".data)).length = 21 :=
          rfl
        omega)]
  rw [replGo_match "555-123-4567".data new.data (by decide) ".".data _
      (by
        have hl : ("555-123-4567".data ++ ".".data).length = 13 := rfl
        have hl2 : (", phone ".data).length = 8 := rfl
        omega)]
  rw [replGo_none_headFree "555-123-4567".data new.data '5' "55-123-4567".data rfl
      ".".data (by decide) _]

theorem hrep2_phone (h0 : List Char) (hh : ∀ c ∈ h0, isHexDigitChar c = true)
    (new : String) :
    pyReplace (String.mk ("Hello John Doe, email TOKEN_EMAIL_".data ++
        (h0 ++ ", phone 555-123-4567.".data))) "555-123-4567" new =
      String.mk ("Hello John Doe, email TOKEN_EMAIL_".data ++
        (h0 ++ (", phone ".data ++ (new.data ++ ".".data)))) := by
  unfold pyReplace
  rw [if_neg (by decide)]
  rw [replGo_skip_headFree "555-123-4567".data new.data '5' "55-123-4567".data rfl
      "Hello John Doe, email TOKEN_EMAIL_".data (by decide)
      (h0 ++ ", phone 555-123-4567.".data) _ (le_refl _)]
  rw [replGo_hexSkip new.data h0 hh _
      (by
        have h34 : ("Hello John Doe, email TOKEN_EMAIL_".data).length = 34 := rfl
        have h21 : (", phone 555-123-4567.".data).length = 21 := rfl
        simp only [List.length_append, h34, h21]
        omega)]
  rw [hCtail_phone new _
      (by
        have h34 : ("Hello John Doe, email TOKEN_EMAIL_".data).length = 34 := rfl
        have h21 : (", phone 555-123-4567.".data).length = 21 := rfl
        simp only [List.length_append, h34, h21]
        omega)]

/-- **C6.** Redacting the specification's end-to-end text for role
`internal` keeps `"John Doe"` verbatim in the output, replaces the email
with a `TOKEN_EMAIL_*` token and the phone number with a `TOKEN_PHONE_*`
token (the suffixes being the first two draws of the randomness oracle,
assumed hexadecimal as `sha256(...).hexdigest()[:12]` produces), and the
returned token map has exactly the 2 corresponding entries. -/
theorem claim_C6 (fresh : Nat → String)
    (hhex : ∀ c ∈ (fresh 0).data, isHexDigitChar c = true) :
    (redact_document fresh tokenizerInit defaultRoles text6 "internal" none).1 =
      ("Hello John Doe, email TOKEN_EMAIL_" ++ fresh 0 ++ ", phone TOKEN_PHONE_" ++
         fresh 1 ++ ".",
       [("TOKEN_EMAIL_" ++ fresh 0, "john.doe@example.com"),
        ("TOKEN_PHONE_" ++ fresh 1, "555-123-4567")]) ∧
    containsSub "John Doe".data
      ("Hello John Doe, email TOKEN_EMAIL_" ++ fresh 0 ++ ", phone TOKEN_PHONE_" ++
         fresh 1 ++ ".").data = true ∧
    (redact_document fresh tokenizerInit defaultRoles text6 "internal" none).1.2.length
      = 2 := by
  have hdet : find_entities text6 none =
      [("email", ["john.doe@example.com"]), ("phone", ["555-123-4567"]),
       ("name", ["Hello John"])] := by decide
  have hne : ("TOKEN_" ++ pyUpper "email" ++ "_" ++ fresh 0) ≠
      ("TOKEN_" ++ pyUpper "phone" ++ "_" ++ fresh 1) := by
    intro h
    have hd : ('T' :: 'O' :: 'K' :: 'E' :: 'N' :: '_' :: 'E' :: 'M' :: 'A' :: 'I' ::
        'L' :: '_' :: (fresh 0).data : List Char) =
        ('T' :: 'O' :: 'K' :: 'E' :: 'N' :: '_' :: 'P' :: 'H' :: 'O' :: 'N' :: 'E' ::
        '_' :: (fresh 1).data) := congrArg String.data h
    simp at hd
  have hfin : (redact_document fresh tokenizerInit defaultRoles text6 "internal" none).1 =
      (pyReplace (pyReplace text6 "john.doe@example.com"
          ("TOKEN_" ++ pyUpper "email" ++ "_" ++ fresh 0)) "555-123-4567"
          ("TOKEN_" ++ pyUpper "phone" ++ "_" ++ fresh 1),
       dictInsert [(("TOKEN_" ++ pyUpper "email" ++ "_" ++ fresh 0),
          "john.doe@example.com")]
         ("TOKEN_" ++ pyUpper "phone" ++ "_" ++ fresh 1) "555-123-4567") := by
    simp only [redact_document, hdet]
    simp only [List.foldl_cons, List.foldl_nil]
    rw [if_pos (by decide), if_neg (by decide), if_neg (by decide)]
    rfl
  have hred : pyReplace (pyReplace text6 "john.doe@example.com"
      ("TOKEN_" ++ pyUpper "email" ++ "_" ++ fresh 0)) "555-123-4567"
      ("TOKEN_" ++ pyUpper "phone" ++ "_" ++ fresh 1) =
      "Hello John Doe, email TOKEN_EMAIL_" ++ fresh 0 ++ ", phone TOKEN_PHONE_" ++
        fresh 1 ++ "." := by
    have e2 : pyReplace text6 "john.doe@example.com"
        ("TOKEN_" ++ pyUpper "email" ++ "_" ++ fresh 0) =
        String.mk ("Hello John Doe, email TOKEN_EMAIL_".data ++
          ((fresh 0).data ++ ", phone 555-123-4567.".data)) :=
      hrep1_email _
    rw [e2]
    have e3 : pyReplace (String.mk ("Hello John Doe, email TOKEN_EMAIL_".data ++
        ((fresh 0).data ++ ", phone 555-123-4567.".data))) "555-123-4567"
        ("TOKEN_" ++ pyUpper "phone" ++ "_" ++ fresh 1) =
        String.mk ("Hello John Doe, email TOKEN_EMAIL_".data ++
          ((fresh 0).data ++ (", phone ".data ++
            (("TOKEN_" ++ pyUpper "phone" ++ "_" ++ fresh 1).data ++ ".".data)))) :=
      hrep2_phone (fresh 0).data hhex _
    rw [e3]
    have hd : ("Hello John Doe, email TOKEN_EMAIL_" ++ fresh 0 ++
        ", phone TOKEN_PHONE_" ++ fresh 1 ++ ".").data =
        "Hello John Doe, email TOKEN_EMAIL_".data ++
          ((fresh 0).data ++ (", phone TOKEN_PHONE_".data ++
            ((fresh 1).data ++ ".".data))) := by
      simp [String.data_append, List.append_assoc]
    have hlist : "Hello John Doe, email TOKEN_EMAIL_".data ++
        ((fresh 0).data ++ (", phone ".data ++
          (("TOKEN_" ++ pyUpper "phone" ++ "_" ++ fresh 1).data ++ ".".data))) =
        ("Hello John Doe, email TOKEN_EMAIL_" ++ fresh 0 ++
          ", phone TOKEN_PHONE_" ++ fresh 1 ++ ".").data := by
      rw [hd]
      rfl
    exact congrArg String.mk hlist
  have hmap : dictInsert [(("TOKEN_" ++ pyUpper "email" ++ "_" ++ fresh 0),
      "john.doe@example.com")]
      ("TOKEN_" ++ pyUpper "phone" ++ "_" ++ fresh 1) "555-123-4567" =
      [("TOKEN_EMAIL_" ++ fresh 0, "john.doe@example.com"),
       ("TOKEN_PHONE_" ++ fresh 1, "555-123-4567")] := by
    simp only [dictInsert]
    rw [if_neg hne]
    rfl
  refine ⟨?_, rfl, ?_⟩
  · rw [hfin, hred, hmap]
  · rw [hfin, hmap]
    rfl

/-- Witness for C6 with a concrete hexadecimal suffix oracle. -/
theorem claim_C6_witness :
    (redact_document freshA tokenizerInit defaultRoles text6 "internal" none).1 =
      ("Hello John Doe, email TOKEN_EMAIL_" ++ freshA 0 ++ ", phone TOKEN_PHONE_" ++
         freshA 1 ++ ".",
       [("TOKEN_EMAIL_" ++ freshA 0, "john.doe@example.com"),
        ("TOKEN_PHONE_" ++ freshA 1, "555-123-4567")]) ∧
    containsSub "John Doe".data
      ("Hello John Doe, email TOKEN_EMAIL_" ++ freshA 0 ++ ", phone TOKEN_PHONE_" ++
         freshA 1 ++ ".").data = true ∧
    (redact_document freshA tokenizerInit defaultRoles text6 "internal" none).1.2.length
      = 2 :=
  claim_C6 freshA (by decide)

end SafeDisclosure
